import Mathlib

/-!
Verification of the hw2 word-embedding trainer (`src/hw2/utils.py` and
`src/hw2/train.py`).

The Python code is shallowly embedded: sentences are lists of integers
(encoded tokens), Python `range` over possibly-negative bounds is `intRange`
over `Int`, the in-place index assignments of the skip-gram label vector are
a `foldl` over `List.set`, and the file written by `save_word2vec_format`
is a list of structured lines.  Randomness (`np.random.choice`) and the
torch training state are made explicit parameters.
-/

namespace HW2

/-- Python `range(lo, hi)` over integers: `[lo, lo+1, ..., hi-1]`,
empty when `hi ≤ lo`. -/
def intRange (lo hi : Int) : List Int :=
  (List.range (hi - lo).toNat).map (fun k : Nat => lo + (k : Int))

/-- Embedding of `utils.get_token` (utils.py lines 36-40):
`return pad_token if (index < 0 or index >= len(sentence)) else sentence[index]`.
In the `else` branch the guard guarantees `0 ≤ index < len`, so
`sentence[index]` is the plain list element; `getD` never falls back to its
default there. -/
def get_token (sentence : List Int) (index : Int) (pad_token : Int) : Int :=
  if index < 0 ∨ (sentence.length : Int) ≤ index then pad_token
  else sentence.getD index.toNat pad_token

/-- The inner window loop shared by both extraction functions
(utils.py lines 73-75 and 109-111):
`for index in range(i - bound, i + bound + 1): if index != i: ...`,
i.e. the window positions around `i` with the centre excluded,
in increasing order. -/
def window_positions (i : Int) (bound : Nat) : List Int :=
  (intRange (i - bound) (i + bound + 1)).filter (fun j => decide (j ≠ i))

/-- Embedding of `utils.get_input_label_data_cbow` (utils.py lines 81-114).
The outer loop `for i in range(bound, len(sentence) - bound)` with the
`break` on `i >= lens[sentence_index][0]` is `range'` plus `takeWhile`;
`bound = int(context_window_len / 2)`; the function returns
`(numpy.array(context_list), numpy.array(tokens))`, modelled as the pair of
the context rows and the label tokens in emission order.  `lens` is the
table of true sentence lengths (`lens[sentence_index][0]`). -/
def get_input_label_data_cbow (sentences : List (List Int))
    (context_window_len : Nat) (pad_token : Int) (lens : List (List Nat)) :
    List (List Int) × List Int :=
  let bound := context_window_len / 2
  let pairs := sentences.enum.flatMap (fun p =>
    ((List.range' bound (p.2.length - bound - bound)).takeWhile
        (fun i => decide (i < (lens.getD p.1 []).getD 0 0))).map
      (fun i : Nat =>
        ((window_positions (i : Int) bound).map
            (fun j => get_token p.2 j pad_token),
         p.2.getD i 0)))
  (pairs.map Prod.fst, pairs.map Prod.snd)

/-- The label vector built by `utils.get_input_label_data_skip_gram`
(utils.py lines 70-76): `context = [0] * n_vocab` followed by
`context[get_token(sentence, index, pad_token)] = 1` for every window
position `index != i`. -/
def skip_gram_label (sentence : List Int) (i : Nat) (bound : Nat)
    (pad_token : Int) (n_vocab : Nat) : List Nat :=
  (window_positions (i : Int) bound).foldl
    (fun ctx j => ctx.set (get_token sentence j pad_token).toNat 1)
    (List.replicate n_vocab 0)

/-- Embedding of `utils.get_input_label_data_skip_gram` (utils.py lines
57-78).  `for (i, token) in enumerate(sentence): if token == 0: break` is
`enum` plus `takeWhile`; the function returns
`(numpy.array(token_list), numpy.array(context_list))`. -/
def get_input_label_data_skip_gram (sentences : List (List Int))
    (context_window_len : Nat) (pad_token : Int) (n_vocab : Nat) :
    List Int × List (List Nat) :=
  let bound := context_window_len / 2
  let pairs := sentences.flatMap (fun s =>
    (s.enum.takeWhile (fun p => decide (p.2 ≠ 0))).map
      (fun p => (p.2, skip_gram_label s p.1 bound pad_token n_vocab)))
  (pairs.map Prod.fst, pairs.map Prod.snd)

/-- Number of binary digits of `n` (`0` for `n = 0`), computed with
explicit fuel so that the kernel can evaluate it. -/
def bitLenAux (fuel n : Nat) : Nat :=
  match fuel with
  | 0 => 0
  | f + 1 => if n = 0 then 0 else bitLenAux f (n / 2) + 1

/-- Number of binary digits of `n`. -/
def bitLen (n : Nat) : Nat := bitLenAux n n

/-- A nonnegative dyadic rational `num * 2 ^ exp`.  All values arising in
the split-size computation of `utils.create_train_val_splits` are of this
form, so Python's binary64 arithmetic can be modelled exactly with
integers. -/
structure Dyadic where
  num : Nat
  exp : Int
deriving DecidableEq

/-- Rounding of a nonnegative dyadic value to the nearest IEEE-754
binary64 value (53-bit significand, ties to even).  Overflow and
subnormals are ignored: the values arising here are moderate. -/
def roundDouble (x : Dyadic) : Dyadic :=
  if x.num = 0 then ⟨0, 0⟩
  else
    let L := bitLen x.num
    if L ≤ 53 then x
    else
      let drop := L - 53
      let m := x.num / 2 ^ drop
      let r := x.num % 2 ^ drop
      let half := 2 ^ (drop - 1)
      let m2 :=
        if half < r then m + 1
        else if r < half then m
        else if m % 2 = 0 then m else m + 1
      ⟨m2, x.exp + drop⟩

/-- Product of two dyadic values. -/
def Dyadic.mul (x y : Dyadic) : Dyadic := ⟨x.num * y.num, x.exp + y.exp⟩

/-- Sum of two dyadic values (aligning the exponents). -/
def Dyadic.add (x y : Dyadic) : Dyadic :=
  if x.exp ≤ y.exp then ⟨x.num + y.num * 2 ^ (y.exp - x.exp).toNat, x.exp⟩
  else ⟨x.num * 2 ^ (x.exp - y.exp).toNat + y.num, y.exp⟩

/-- Floor of a nonnegative dyadic value. -/
def Dyadic.floor (x : Dyadic) : Nat :=
  if 0 ≤ x.exp then x.num * 2 ^ x.exp.toNat else x.num / 2 ^ (-x.exp).toNat

/-- The exact value of the Python float literal `0.7`
(the binary64 value nearest `0.7`): `3152519739159347 * 2 ^ (-52)`. -/
def double_0_7 : Dyadic := ⟨3152519739159347, -52⟩

/-- Size of the train split drawn by `utils.create_train_val_splits`
(utils.py line 50): `int(len(all_sentences) * prop_train + 0.5)` with the
default `prop_train=0.7`, following Python's binary64 arithmetic exactly:
`n` is converted to float, multiplied by the float `0.7`, `0.5` is added
(each step rounded to binary64), and `int` truncates (floor, as the value
is nonnegative).  Note this differs from the exact-arithmetic
`⌊0.7n + 0.5⌋` at `n = 45, 85, 165, ...`. -/
def train_split_size (n : Nat) : Nat :=
  (roundDouble ((roundDouble ((roundDouble ⟨n, 0⟩).mul double_0_7)).add
    ⟨1, -1⟩)).floor

/-- Embedding of `utils.create_train_val_splits` (utils.py lines 43-54)
with the random draw `np.random.choice(range(n), size=..., replace=False)`
made explicit: `train_idxs` is the drawn index list (the theorems assume it
is duplicate-free, within range and of size `train_split_size n`, which
`np.random.choice` with `replace=False` guarantees).  The two comprehensions
`[all_sentences[idx] for idx in range(n) if idx in train_idxs]` and
`[... if idx not in train_idxs]` are filters over the enumerated list. -/
def create_train_val_splits (all_sentences : List α) (train_idxs : List Nat) :
    List α × List α :=
  ((all_sentences.enum.filter (fun p => train_idxs.contains p.1)).map Prod.snd,
   (all_sentences.enum.filter (fun p => !train_idxs.contains p.1)).map Prod.snd)

/-- Keyword parameters accepted by `utils.create_train_val_splits`
(utils.py line 43): `def create_train_val_splits(all_sentences: list, prop_train=0.7)`. -/
def create_train_val_splits_params : List String :=
  ["all_sentences", "prop_train"]

/-- Number of values `utils.create_train_val_splits` returns
(utils.py line 54): `return train_sentences, val_sentences`. -/
def create_train_val_splits_return_arity : Nat := 2

/-- Keyword arguments passed at the call site in `setup_dataloader`
(train.py lines 53-54):
`utils.create_train_val_splits(all_sentences=encoded_sentences, lens=lens)`. -/
def setup_dataloader_split_call_kwargs : List String :=
  ["all_sentences", "lens"]

/-- Number of values the call site unpacks (train.py line 53):
`train_sentences, val_sentences, train_sentences_lens, val_sentences_lens = ...`. -/
def setup_dataloader_split_unpack_arity : Nat := 4

/-- Python call binding: a keyword call succeeds only when every keyword
names a declared parameter (otherwise `TypeError: unexpected keyword
argument`). -/
def python_kwargs_accepted (params kwargs : List String) : Bool :=
  kwargs.all (fun k => params.contains k)

/-- Possible outcomes of `train.main` (train.py lines 171-264) up to the
branch decision. -/
inductive MainOutcome where
  /-- `utils.read_analogies(args.analogies_fn)` (train.py line 175) raises
  `FileNotFoundError`: the analogies file does not exist. -/
  | errFileNotFound
  /-- the `assert os.path.exists(word_vec_file)` on train.py line 179
  fails with `AssertionError`. -/
  | errAssertion
  /-- `downstream_validation` ran on the word-vector file and `main`
  returned (train.py lines 180-181), without building dataloaders,
  training, checkpointing, or plotting. -/
  | ranDownstream
  /-- `main` proceeded past the `downstream_eval` branch into dataloader
  construction and the training loop (train.py lines 183-264). -/
  | ranTraining
deriving DecidableEq

/-- Embedding of the control flow of `train.main` (train.py lines 171-181):
`read_analogies` opens `args.analogies_fn` first; then, if
`args.downstream_eval` is set, the word-vector file existence assertion
gates `downstream_validation`; otherwise training proceeds.  The two
booleans model existence of the analogies file and of
`outputs_dir/word_vector_fn`. -/
def main_outcome (downstream_eval analogies_exists wordvec_exists : Bool) :
    MainOutcome :=
  if !analogies_exists then MainOutcome.errFileNotFound
  else if downstream_eval then
    if !wordvec_exists then MainOutcome.errAssertion
    else MainOutcome.ranDownstream
  else MainOutcome.ranTraining

/-- The attributes of the trained model that `utils.save_word2vec_format`
reads: `model.n_vocab`, `model.n_embedding`, and the embedding matrix rows
`model.embedding_layer.weight.data[index]` (entries kept abstract as `α`,
the code only enumerates and formats them). -/
structure W2VModel (α : Type) where
  n_vocab : Nat
  n_embedding : Nat
  weight : List (List α)

/-- One line of the file written by `utils.save_word2vec_format`: the
header `"%d %d\n" % (model.n_vocab, model.n_embedding)` or a data line
`"%s %s\n" % (word, " ".join("%f" % val for val in row))`. -/
inductive W2VLine (α : Type) where
  | header (nv ne : Nat)
  | vec (word : String) (vals : List α)
deriving DecidableEq

/-- Embedding of `utils.save_word2vec_format` (utils.py lines 19-33): one
header line, then `for index in tqdm.tqdm(range(len(i2v)))` one line with
`word = i2v[index]` and `row = model.embedding_layer.weight.data[index]`.
The index-to-vocab dict with keys `0 .. len(i2v)-1` is modelled as a list
of words. -/
def save_word2vec_format (model : W2VModel α) (i2v : List String) :
    List (W2VLine α) :=
  W2VLine.header model.n_vocab model.n_embedding ::
  (List.range i2v.length).map (fun index =>
    W2VLine.vec (i2v.getD index "") (model.weight.getD index []))

/-- The mutable torch state touched by `train_epoch` and `validate`
(train.py lines 102-168): the model parameters, the Adam optimizer state,
and the module's train/eval mode flag. -/
structure TorchState (P O : Type) where
  params : P
  optState : O
  trainingMode : Bool

/-- Embedding of `train.train_epoch` (train.py lines 102-149) as its
effect on the torch state.  `model.train()` (line 111) sets the mode flag;
inside the batch loop the only writes to parameters or optimizer state are
`optimizer.zero_grad(); loss.backward(); optimizer.step()` (lines 132-135),
guarded by `if training:` and abstracted as `backstep`.

Modelled from the spec: the forward pass of the "thin embedding-lookup
model" (`model.py`, not in the sources) and the loss evaluation read the
parameters but do not write them, so they do not appear in the state
update. -/
def train_epoch_state (training : Bool) (backstep : P → O → B → P × O)
    (batches : List B) (st : TorchState P O) : TorchState P O :=
  batches.foldl
    (fun s b =>
      if training then
        { s with
          params := (backstep s.params s.optState b).1,
          optState := (backstep s.params s.optState b).2 }
      else s)
    { st with trainingMode := true }

/-- Embedding of `train.validate` (train.py lines 152-168) as its effect on
the torch state: `model.eval()` clears the mode flag, then `train_epoch` is
invoked with `training=False` (inside `torch.no_grad()`, which itself
writes no parameter or optimizer state). -/
def validate_state (backstep : P → O → B → P × O) (batches : List B)
    (st : TorchState P O) : TorchState P O :=
  train_epoch_state false backstep batches { st with trainingMode := false }

/-- Python `range(start, stop, step)` for a positive step, as a list. -/
def pyRangeStep (start stop step : Nat) : List Nat :=
  List.range' start ((stop - start + step - 1) / step) step

/-- The x-axis of `utils.output_result_figure` (utils.py line 161):
`[i for i in range(1, args.num_epochs + 1, args.val_every)]` for a
validation graph, `[i for i in range(1, args.num_epochs + 1)]` otherwise. -/
def output_result_figure_x_axis (num_epochs val_every : Nat)
    (is_val : Bool) : List Nat :=
  if is_val then pyRangeStep 1 (num_epochs + 1) val_every
  else pyRangeStep 1 (num_epochs + 1) 1

/-- The epochs at which the training loop of `train.main` (train.py lines
201-228) appends a validation measurement: `for epoch in
range(args.num_epochs): ... if epoch % args.val_every == 0:
all_val_acc.append(...); all_val_loss.append(...)`. -/
def main_val_epochs (num_epochs val_every : Nat) : List Nat :=
  (List.range num_epochs).filter (fun e => e % val_every == 0)

/-- The example claim C2 states `get_input_label_data_cbow` emits at
position `i` (with `bound ≤ i < len - bound`): label `sentence[i]` and, as
context, the tokens at positions `i - bound, ..., i + bound` with `i`
itself excluded, in increasing position order. -/
def cbow_example_spec (s : List Int) (bound i : Nat) : List Int × Int :=
  ((intRange ((i : Int) - bound) i ++
      intRange ((i : Int) + 1) ((i : Int) + bound + 1)).map
    (fun j => s.getD j.toNat 0),
   s.getD i 0)

/-- The (context, label) example list claim C2 describes: for each sentence
(in order) one example for each position `i` with
`bound ≤ i < len(sentence) - bound` and `i < lens[sentence_index][0]`,
in increasing `i`. -/
def cbow_spec (sentences : List (List Int)) (context_window_len : Nat)
    (lens : List (List Nat)) : List (List Int × Int) :=
  sentences.enum.flatMap (fun p =>
    ((List.range' (context_window_len / 2)
        (p.2.length - context_window_len / 2 - context_window_len / 2)).filter
      (fun i => decide (i < (lens.getD p.1 []).getD 0 0))).map
      (cbow_example_spec p.2 (context_window_len / 2)))

/-- The label vector claim C4 describes for the skip-gram example at
position `i`: length `n_vocab`, holding `1` exactly at the values of the
tokens occurring at window positions `i - bound, ..., i + bound` other
than `i` (out-of-range positions contributing the pad token), `0`
elsewhere. -/
def skip_gram_label_spec (s : List Int) (i bound : Nat) (pad_token : Int)
    (n_vocab : Nat) : List Nat :=
  (List.range n_vocab).map (fun v : Nat =>
    if (v : Int) ∈ (window_positions (i : Int) bound).map
        (fun j => get_token s j pad_token) then 1 else 0)

/-- Claim C5 as stated: with `downstream_eval` set, `main` fails with the
assertion error iff the word-vector file is missing, and when the file
exists it runs `downstream_validation` and returns without training —
regardless of the analogies file. -/
def claim_c5 : Prop :=
  ∀ analogies_exists wordvec_exists : Bool,
    (main_outcome true analogies_exists wordvec_exists =
        MainOutcome.errAssertion ↔ wordvec_exists = false) ∧
    (wordvec_exists = true →
      main_outcome true analogies_exists wordvec_exists =
        MainOutcome.ranDownstream)

/-! ## Helper lemmas -/

theorem length_intRange (lo hi : Int) :
    (intRange lo hi).length = (hi - lo).toNat := by
  unfold intRange
  rw [List.length_map, List.length_range]

theorem mem_intRange {j lo hi : Int} :
    j ∈ intRange lo hi ↔ lo ≤ j ∧ j < hi := by
  simp only [intRange, List.mem_map, List.mem_range]
  constructor
  · rintro ⟨k, hk, rfl⟩
    omega
  · intro h
    exact ⟨(j - lo).toNat, by omega, by omega⟩

theorem intRange_succ_left {lo hi : Int} (h : lo < hi) :
    intRange lo hi = lo :: intRange (lo + 1) hi := by
  unfold intRange
  have h1 : (hi - lo).toNat = (hi - (lo + 1)).toNat + 1 := by omega
  rw [h1, List.range_succ_eq_map, List.map_cons, List.map_map]
  congr 1
  · simp
  · apply List.map_congr_left
    intro a _
    simp only [Function.comp_apply]
    push_cast
    ring

theorem intRange_append (k : Nat) (lo hi : Int) (h : lo + k ≤ hi) :
    intRange lo hi = intRange lo (lo + k) ++ intRange (lo + k) hi := by
  induction k generalizing lo with
  | zero =>
    have h0 : intRange lo lo = [] := by
      unfold intRange
      norm_num
    push_cast
    simp [h0]
  | succ k ih =>
    have hlt : lo < hi := by omega
    have hlt2 : lo < lo + ((k : Nat) + 1 : Nat) := by
      push_cast
      omega
    rw [intRange_succ_left hlt, intRange_succ_left hlt2]
    have ih2 := ih (lo + 1) (by push_cast at h ⊢; omega)
    rw [ih2]
    have he : lo + 1 + (k : Int) = lo + ((k : Nat) + 1 : Nat) := by
      push_cast
      ring
    rw [he]
    simp

theorem window_positions_eq_append (i : Int) (b : Nat) :
    window_positions i b = intRange (i - b) i ++ intRange (i + 1) (i + b + 1) := by
  unfold window_positions
  have h1 : intRange (i - b) (i + b + 1) =
      intRange (i - b) i ++ intRange i (i + b + 1) := by
    have := intRange_append b (i - b) (i + b + 1) (by omega)
    rw [show i - (b : Int) + (b : Nat) = i by omega] at this
    exact this
  have h2 : intRange i (i + b + 1) = i :: intRange (i + 1) (i + b + 1) :=
    intRange_succ_left (by omega)
  have hl : (intRange (i - b) i).filter (fun j => decide (j ≠ i)) =
      intRange (i - b) i := by
    apply List.filter_eq_self.mpr
    intro j hj
    have := mem_intRange.mp hj
    simp only [decide_eq_true_eq]
    omega
  have hr : (intRange (i + 1) (i + b + 1)).filter (fun j => decide (j ≠ i)) =
      intRange (i + 1) (i + b + 1) := by
    apply List.filter_eq_self.mpr
    intro j hj
    have := mem_intRange.mp hj
    simp only [decide_eq_true_eq]
    omega
  rw [h1, h2, List.filter_append, List.filter_cons_of_neg (by simp), hl, hr]

theorem length_window_positions (i : Int) (b : Nat) :
    (window_positions i b).length = 2 * b := by
  rw [window_positions_eq_append, List.length_append, length_intRange,
    length_intRange]
  omega

theorem takeWhile_lt_range' (a n m : Nat) :
    (List.range' a n).takeWhile (fun i => decide (i < m)) =
      (List.range' a n).filter (fun i => decide (i < m)) := by
  induction n generalizing a with
  | zero => rfl
  | succ n ih =>
    rw [List.range'_succ, List.takeWhile_cons, List.filter_cons]
    by_cases h : a < m
    · rw [if_pos (by simpa using h), if_pos (by simpa using h), ih]
    · rw [if_neg (by simpa using h), if_neg (by simpa using h)]
      symm
      rw [List.filter_eq_nil_iff]
      intro x hx
      have := List.mem_range'_1.mp hx
      simp only [decide_eq_true_eq]
      omega

theorem get_token_inbounds {s : List Int} {j : Int} (pad_token : Int)
    (h0 : 0 ≤ j) (h1 : j < s.length) :
    get_token s j pad_token = s.getD j.toNat 0 := by
  unfold get_token
  rw [if_neg (by omega)]
  have hj : j.toNat < s.length := by omega
  rw [List.getD_eq_getElem _ _ hj, List.getD_eq_getElem _ _ hj]

theorem cbow_eq_spec (sentences : List (List Int)) (context_window_len : Nat)
    (pad_token : Int) (lens : List (List Nat)) :
    get_input_label_data_cbow sentences context_window_len pad_token lens =
      ((cbow_spec sentences context_window_len lens).map Prod.fst,
       (cbow_spec sentences context_window_len lens).map Prod.snd) := by
  unfold get_input_label_data_cbow cbow_spec
  have key : ∀ p ∈ sentences.enum,
      ((List.range' (context_window_len / 2)
          (p.2.length - context_window_len / 2 - context_window_len / 2)).takeWhile
        (fun i => decide (i < (lens.getD p.1 []).getD 0 0))).map
        (fun i : Nat =>
          ((window_positions (i : Int) (context_window_len / 2)).map
              (fun j => get_token p.2 j pad_token),
           p.2.getD i 0)) =
      ((List.range' (context_window_len / 2)
          (p.2.length - context_window_len / 2 - context_window_len / 2)).filter
        (fun i => decide (i < (lens.getD p.1 []).getD 0 0))).map
        (cbow_example_spec p.2 (context_window_len / 2)) := by
    intro p _
    rw [takeWhile_lt_range']
    apply List.map_congr_left
    intro i hi
    have hi2 := List.mem_range'_1.mp (List.mem_of_mem_filter hi)
    have hlow : context_window_len / 2 ≤ i := hi2.1
    have hhigh : i + context_window_len / 2 < p.2.length := by omega
    unfold cbow_example_spec
    congr 1
    rw [window_positions_eq_append]
    apply List.map_congr_left
    intro j hj
    rcases List.mem_append.mp hj with hj' | hj' <;>
      · have := mem_intRange.mp hj'
        apply get_token_inbounds <;> omega
  simp only []
  rw [List.flatMap_congr key]

/-- Claim C1 (code bug): the call
`utils.create_train_val_splits(all_sentences=encoded_sentences, lens=lens)`
in `setup_dataloader` (train.py lines 53-54) does NOT match the accepted
parameters of `utils.create_train_val_splits` (utils.py line 43) — the
keyword `lens` is not a declared parameter, so Python raises
`TypeError: create_train_val_splits() got an unexpected keyword argument`
— and even the return arity (2) differs from the unpack arity (4).
Dataset construction therefore cannot succeed, contrary to the claim. -/
theorem c1_split_call_mismatch :
    python_kwargs_accepted create_train_val_splits_params
      setup_dataloader_split_call_kwargs = false ∧
    create_train_val_splits_return_arity ≠ setup_dataloader_split_unpack_arity := by
  decide

/-! ## Claim C2 -/

/-- Claim C2: for every list of encoded sentences, every context window
length `w` (with `bound = w / 2`), every pad token and every lens table,
`get_input_label_data_cbow` emits exactly one (context, label) example for
each position `i` of each sentence with `bound ≤ i < len(sentence) - bound`
and `i < lens[sentence_index][0]`; the label is `sentence[i]` and the
context is the tokens at positions `i - bound` through `i + bound`
excluding `i`, in increasing position order (`cbow_example_spec`).  The
second conjunct identifies the position list of `cbow_spec` with the
claim's inequalities. -/
theorem c2_cbow_extraction (sentences : List (List Int))
    (context_window_len : Nat) (pad_token : Int) (lens : List (List Nat)) :
    (get_input_label_data_cbow sentences context_window_len pad_token lens =
      ((cbow_spec sentences context_window_len lens).map Prod.fst,
       (cbow_spec sentences context_window_len lens).map Prod.snd)) ∧
    (∀ (s : List Int) (bound len0 i : Nat),
      i ∈ (List.range' bound (s.length - bound - bound)).filter
          (fun i => decide (i < len0)) ↔
        (bound ≤ i ∧ i + bound < s.length ∧ i < len0)) := by
  refine ⟨cbow_eq_spec sentences context_window_len pad_token lens, ?_⟩
  intro s bound len0 i
  rw [List.mem_filter, List.mem_range'_1]
  simp only [decide_eq_true_eq]
  omega

/-! ## Claim C7 -/

/-- Claim C7: the context array and the label array returned by
`get_input_label_data_cbow` have the same first dimension, and every
context row has exactly `2 * (context_window_len / 2)` entries, so the
context array is rectangular. -/
theorem c7_cbow_shapes (sentences : List (List Int))
    (context_window_len : Nat) (pad_token : Int) (lens : List (List Nat)) :
    (get_input_label_data_cbow sentences context_window_len pad_token lens).1.length =
      (get_input_label_data_cbow sentences context_window_len pad_token lens).2.length ∧
    ∀ row ∈ (get_input_label_data_cbow sentences context_window_len pad_token lens).1,
      row.length = 2 * (context_window_len / 2) := by
  unfold get_input_label_data_cbow
  simp only []
  refine ⟨by simp, ?_⟩
  intro row hrow
  simp only [List.mem_map, List.mem_flatMap] at hrow
  obtain ⟨pair, ⟨p, _, hpair⟩, rfl⟩ := hrow
  obtain ⟨i, _, rfl⟩ := hpair
  simp [length_window_positions]

/-- Witness for claim C7 at one padded sentence with true length 4 and
window length 2: three examples, each context row of width 2. -/
theorem c7_cbow_shapes_witness :
    (get_input_label_data_cbow [[5, 6, 7, 8, 0, 0]] 2 9 [[4]]).1.length =
      (get_input_label_data_cbow [[5, 6, 7, 8, 0, 0]] 2 9 [[4]]).2.length ∧
    ∀ row ∈ (get_input_label_data_cbow [[5, 6, 7, 8, 0, 0]] 2 9 [[4]]).1,
      row.length = 2 * (2 / 2) :=
  c7_cbow_shapes [[5, 6, 7, 8, 0, 0]] 2 9 [[4]]

/-! ## Claim C8 -/

/-- Claim C8: `get_token` is total — it returns the pad token exactly when
the index is out of range and the sentence element itself otherwise (first
conjunct, stated with default `0` so the in-range branch provably does not
depend on the pad token) — and the padding branch is unreachable in CBOW
extraction: `get_input_label_data_cbow` yields identical results for any
two pad tokens, because every window position it queries is in range
(second conjunct). -/
theorem c8_get_token_total_pad_unused :
    (∀ (sentence : List Int) (index pad_token : Int),
      get_token sentence index pad_token =
        if index < 0 ∨ (sentence.length : Int) ≤ index then pad_token
        else sentence.getD index.toNat 0) ∧
    (∀ (sentences : List (List Int)) (context_window_len : Nat)
        (pad_token pad_token' : Int) (lens : List (List Nat)),
      get_input_label_data_cbow sentences context_window_len pad_token lens =
        get_input_label_data_cbow sentences context_window_len pad_token' lens) := by
  constructor
  · intro s index pad_token
    by_cases h : index < 0 ∨ (s.length : Int) ≤ index
    · rw [if_pos h]
      unfold get_token
      rw [if_pos h]
    · rw [if_neg h]
      push_neg at h
      exact get_token_inbounds pad_token h.1 (by omega)
  · intro sentences w p q lens
    rw [cbow_eq_spec, cbow_eq_spec]

/-! ## Claim C4 -/

theorem get_token_nonneg {s : List Int} {pad_token : Int}
    (hpad : 0 ≤ pad_token) (hs : ∀ t ∈ s, 0 ≤ t) (j : Int) :
    0 ≤ get_token s j pad_token := by
  unfold get_token
  split
  · exact hpad
  · next h =>
    push_neg at h
    have hj : j.toNat < s.length := by omega
    rw [List.getD_eq_getElem _ _ hj]
    exact hs _ (List.getElem_mem hj)

theorem foldl_set_length (js : List Nat) (acc : List Nat) :
    (js.foldl (fun c j => c.set j 1) acc).length = acc.length := by
  induction js generalizing acc with
  | nil => rfl
  | cons j js ih => rw [List.foldl_cons, ih, List.length_set]

theorem foldl_set_getD (js : List Nat) (acc : List Nat) (v : Nat)
    (hv : v < acc.length) :
    (js.foldl (fun c j => c.set j 1) acc).getD v 0 =
      if v ∈ js then 1 else acc.getD v 0 := by
  induction js generalizing acc with
  | nil => simp
  | cons j js ih =>
    rw [List.foldl_cons, ih _ (by rw [List.length_set]; exact hv)]
    by_cases hj : v ∈ js
    · simp [hj]
    · rw [if_neg hj]
      by_cases hvj : v = j
      · subst hvj
        rw [if_pos (List.mem_cons_self _ _),
          List.getD_eq_getElem _ _ (by rwa [List.length_set]),
          List.getElem_set, if_pos rfl]
      · rw [if_neg (by simp [hvj, hj]),
          List.getD_eq_getElem _ _ (by rwa [List.length_set]),
          List.getD_eq_getElem _ _ hv, List.getElem_set,
          if_neg (fun hh => hvj hh.symm)]

theorem foldl_set_eq_indicator (js : List Nat) (n : Nat) :
    js.foldl (fun c j => c.set j 1) (List.replicate n 0) =
      (List.range n).map (fun v => if v ∈ js then 1 else 0) := by
  apply List.ext_getElem
  · rw [foldl_set_length, List.length_replicate, List.length_map,
      List.length_range]
  · intro v h1 h2
    have hv : v < n := by
      rw [List.length_map, List.length_range] at h2
      exact h2
    have hrep : v < (List.replicate n (0 : Nat)).length := by
      rwa [List.length_replicate]
    have hfold := foldl_set_getD js (List.replicate n 0) v hrep
    rw [List.getD_eq_getElem _ _ h1,
      List.getD_eq_getElem _ _ hrep, List.getElem_replicate] at hfold
    rw [hfold, List.getElem_map, List.getElem_range]

theorem enum_takeWhile_map_snd (s : List Int) :
    ((s.enum.takeWhile (fun p => decide (p.2 ≠ 0))).map Prod.snd) =
      s.takeWhile (fun t => decide (t ≠ 0)) := by
  suffices hsuf : ∀ k : Nat,
      (((List.enumFrom k s).takeWhile (fun p => decide (p.2 ≠ 0))).map
        Prod.snd) = s.takeWhile (fun t => decide (t ≠ 0)) from hsuf 0
  intro k
  induction s generalizing k with
  | nil => rfl
  | cons a s ih =>
    rw [List.enumFrom_cons]
    by_cases h : a = 0
    · rw [List.takeWhile_cons_of_neg (by simp [h]),
        List.takeWhile_cons_of_neg (by simp [h])]
      rfl
    · rw [List.takeWhile_cons_of_pos (by simp [h]),
        List.takeWhile_cons_of_pos (by simp [h]), List.map_cons]
      exact congrArg (List.cons a) (ih (k + 1))

theorem skip_gram_label_eq_spec (s : List Int) (i bound : Nat)
    (pad_token : Int) (n_vocab : Nat) (hpad : 0 ≤ pad_token)
    (hs : ∀ t ∈ s, 0 ≤ t) :
    skip_gram_label s i bound pad_token n_vocab =
      skip_gram_label_spec s i bound pad_token n_vocab := by
  unfold skip_gram_label skip_gram_label_spec
  have h1 : (window_positions (i : Int) bound).foldl
      (fun ctx j => ctx.set (get_token s j pad_token).toNat 1)
      (List.replicate n_vocab 0) =
      ((window_positions (i : Int) bound).map
        (fun j : Int => (get_token s j pad_token).toNat)).foldl
        (fun c x => c.set x 1) (List.replicate n_vocab 0) :=
    (List.foldl_map (fun j : Int => (get_token s j pad_token).toNat)
      (fun c x => c.set x 1) (window_positions (i : Int) bound)
      (List.replicate n_vocab 0)).symm
  rw [h1, foldl_set_eq_indicator]
  apply List.map_congr_left
  intro v _
  have hiff : v ∈ (window_positions (i : Int) bound).map
        (fun j => (get_token s j pad_token).toNat) ↔
      (v : Int) ∈ (window_positions (i : Int) bound).map
        (fun j => get_token s j pad_token) := by
    rw [List.mem_map, List.mem_map]
    constructor
    · rintro ⟨j, hj, hv⟩
      refine ⟨j, hj, ?_⟩
      have hnn := get_token_nonneg hpad hs j
      omega
    · rintro ⟨j, hj, hv⟩
      refine ⟨j, hj, ?_⟩
      omega
  exact if_congr hiff rfl rfl

/-- Claim C4: for encoded sentences (tokens and pad token in
`[0, n_vocab)`), `get_input_label_data_skip_gram` emits one example per
token of each sentence up to but excluding the first token equal to `0`;
each example's label vector has length `n_vocab` and holds `1` exactly at
the values of the tokens occurring at window positions `i - w/2` through
`i + w/2` other than `i` (out-of-range positions contributing the pad
token) and `0` everywhere else (`skip_gram_label_spec`). -/
theorem c4_skip_gram_extraction (sentences : List (List Int))
    (context_window_len : Nat) (pad_token : Int) (n_vocab : Nat)
    (hpad : 0 ≤ pad_token ∧ pad_token < n_vocab)
    (htok : ∀ s ∈ sentences, ∀ t ∈ s, 0 ≤ t ∧ t < n_vocab) :
    get_input_label_data_skip_gram sentences context_window_len pad_token
        n_vocab =
      (sentences.flatMap (fun s => s.takeWhile (fun t => decide (t ≠ 0))),
       sentences.flatMap (fun s =>
         (s.enum.takeWhile (fun p => decide (p.2 ≠ 0))).map
           (fun p => skip_gram_label_spec s p.1 (context_window_len / 2)
              pad_token n_vocab))) := by
  unfold get_input_label_data_skip_gram
  simp only []
  congr 1
  · rw [List.map_flatMap]
    apply List.flatMap_congr
    intro s _
    rw [List.map_map]
    have hcomp : (Prod.fst ∘ fun p : Nat × Int =>
        (p.2, skip_gram_label s p.1 (context_window_len / 2) pad_token
          n_vocab)) = Prod.snd := rfl
    rw [hcomp, enum_takeWhile_map_snd]
  · rw [List.map_flatMap]
    apply List.flatMap_congr
    intro s hsmem
    rw [List.map_map]
    apply List.map_congr_left
    intro p _
    simp only [Function.comp_apply]
    exact skip_gram_label_eq_spec s p.1 (context_window_len / 2) pad_token
      n_vocab hpad.1 (fun t ht => (htok s hsmem t ht).1)

/-- Witness for claim C4 at `sentences = [[1, 2]]`, window length `2`,
pad token `3`, `n_vocab = 4`. -/
theorem c4_skip_gram_extraction_witness :
    ((0 : Int) ≤ 3 ∧ (3 : Int) < 4) ∧
    (∀ s ∈ ([[1, 2]] : List (List Int)), ∀ t ∈ s, 0 ≤ t ∧ t < 4) ∧
    get_input_label_data_skip_gram [[1, 2]] 2 3 4 =
      (([[1, 2]] : List (List Int)).flatMap
        (fun s => s.takeWhile (fun t => decide (t ≠ 0))),
       ([[1, 2]] : List (List Int)).flatMap (fun s =>
         (s.enum.takeWhile (fun p => decide (p.2 ≠ 0))).map
           (fun p => skip_gram_label_spec s p.1 (2 / 2) 3 4))) :=
  ⟨by decide, by decide,
    c4_skip_gram_extraction [[1, 2]] 2 3 4 (by decide) (by decide)⟩

/-! ## Claim C5 -/

/-- Claim C5 is false on the code: `main` calls
`utils.read_analogies(args.analogies_fn)` (train.py line 175) before the
`downstream_eval` branch, so with a missing analogies file and an existing
word-vector file `main` fails with `FileNotFoundError` — not with the
assertion, and not reaching `downstream_validation`. -/
theorem c5_counterexample : ¬ claim_c5 := by
  intro h
  have := (h false true).2 rfl
  simp [main_outcome] at this

/-- Claim C5 amended: provided the analogies file read at the start of
`main` succeeds, on the downstream-eval path `main` raises the assertion
error iff the word-vector file at `outputs_dir/word_vector_fn` does not
exist, and when it exists `main` runs `downstream_validation` and returns
without building dataloaders, training, checkpointing, or plotting. -/
theorem c5_downstream_gate :
    (∀ wordvec_exists : Bool,
      main_outcome true true wordvec_exists = MainOutcome.errAssertion ↔
        wordvec_exists = false) ∧
    main_outcome true true true = MainOutcome.ranDownstream := by
  decide

/-! ## Claim C6 -/

/-- Claim C6: `save_word2vec_format` writes `1 + len(i2v)` lines: first a
header line with `model.n_vocab` and `model.n_embedding`, then for each
index `0 ≤ k < len(i2v)` in increasing order one line with the word
`i2v[k]` followed by the values of the model's embedding row at index `k`,
which number `n_embedding` (assuming, as for the trained model, that the
weight matrix has at least `len(i2v)` rows of `n_embedding` entries
each). -/
theorem c6_save_word2vec (α : Type) (model : W2VModel α) (i2v : List String)
    (h1 : i2v.length ≤ model.weight.length)
    (h2 : ∀ row ∈ model.weight, row.length = model.n_embedding) :
    (save_word2vec_format model i2v).length = 1 + i2v.length ∧
    (save_word2vec_format model i2v)[0]? =
      some (W2VLine.header model.n_vocab model.n_embedding) ∧
    ∀ k, k < i2v.length →
      (save_word2vec_format model i2v)[k + 1]? =
        some (W2VLine.vec (i2v.getD k "") (model.weight.getD k [])) ∧
      (model.weight.getD k []).length = model.n_embedding := by
  unfold save_word2vec_format
  refine ⟨by simp [Nat.add_comm], by simp, ?_⟩
  intro k hk
  constructor
  · rw [List.getElem?_cons_succ, List.getElem?_map, List.getElem?_range hk]
    rfl
  · have hkw : k < model.weight.length := lt_of_lt_of_le hk h1
    rw [List.getD_eq_getElem _ _ hkw]
    exact h2 _ (List.getElem_mem hkw)

/-- Witness for claim C6: a model with `n_vocab = 3`, `n_embedding = 2`,
three weight rows, and two words. -/
theorem c6_save_word2vec_witness :
    (["a", "b"] : List String).length ≤
      (W2VModel.mk 3 2 [[5, 6], [7, 8], [9, 10]] : W2VModel Int).weight.length ∧
    (∀ row ∈ (W2VModel.mk 3 2 [[5, 6], [7, 8], [9, 10]] :
        W2VModel Int).weight, row.length = 2) ∧
    ((save_word2vec_format (W2VModel.mk 3 2 [[5, 6], [7, 8], [9, 10]] :
        W2VModel Int) ["a", "b"]).length = 1 + (["a", "b"] : List String).length ∧
     (save_word2vec_format (W2VModel.mk 3 2 [[5, 6], [7, 8], [9, 10]] :
        W2VModel Int) ["a", "b"])[0]? = some (W2VLine.header 3 2) ∧
     ∀ k, k < (["a", "b"] : List String).length →
       (save_word2vec_format (W2VModel.mk 3 2 [[5, 6], [7, 8], [9, 10]] :
          W2VModel Int) ["a", "b"])[k + 1]? =
         some (W2VLine.vec ((["a", "b"] : List String).getD k "")
           (([[5, 6], [7, 8], [9, 10]] : List (List Int)).getD k [])) ∧
       (([[5, 6], [7, 8], [9, 10]] : List (List Int)).getD k []).length = 2) :=
  ⟨by decide, by decide,
    c6_save_word2vec Int (W2VModel.mk 3 2 [[5, 6], [7, 8], [9, 10]])
      ["a", "b"] (by decide) (by decide)⟩

/-! ## Claim C9 -/

/-- Claim C9: `validate` invokes `train_epoch` with `training=False`, so no
`loss.backward()` and no `optimizer.step()` run, and the model parameters
and the optimizer state after `validate` are exactly those before it
(only the train/eval mode flag is touched), for every model, loader
content, optimizer and abstracted backward/step update. -/
theorem c9_validate_frame {P O B : Type} (backstep : P → O → B → P × O)
    (batches : List B) (st : TorchState P O) :
    (validate_state backstep batches st).params = st.params ∧
    (validate_state backstep batches st).optState = st.optState := by
  have h : ∀ s : TorchState P O,
      train_epoch_state false backstep batches s =
        { s with trainingMode := true } := by
    intro s
    unfold train_epoch_state
    induction batches generalizing s with
    | nil => rfl
    | cons b bs ih => simp [ih _]
  rw [validate_state, h]
  exact ⟨rfl, rfl⟩

/-! ## Claim C3 -/

theorem contains_iff_mem_nat {l : List Nat} {a : Nat} :
    l.contains a = true ↔ a ∈ l :=
  ⟨List.mem_of_elem_eq_true, List.elem_eq_true_of_mem⟩

theorem filter_range_contains_length (n : Nat) (idxs : List Nat)
    (hnd : idxs.Nodup) (hsub : ∀ i ∈ idxs, i < n) :
    ((List.range n).filter (fun i => idxs.contains i)).length = idxs.length := by
  apply List.Perm.length_eq
  apply List.perm_of_nodup_nodup_toFinset_eq
  · exact (List.nodup_range n).filter _
  · exact hnd
  · ext x
    simp only [List.mem_toFinset, List.mem_filter, List.mem_range]
    constructor
    · rintro ⟨hx, hc⟩
      exact contains_iff_mem_nat.mp hc
    · intro hx
      exact ⟨hsub x hx, contains_iff_mem_nat.mpr hx⟩

theorem create_splits_perm (all_sentences : List α) (train_idxs : List Nat) :
    ((create_train_val_splits all_sentences train_idxs).1 ++
      (create_train_val_splits all_sentences train_idxs).2).Perm all_sentences := by
  unfold create_train_val_splits
  rw [← List.map_append]
  have hp := List.filter_append_perm (fun p => train_idxs.contains p.1)
    all_sentences.enum
  have hm := hp.map Prod.snd
  rw [List.enum_map_snd] at hm
  exact hm

theorem create_splits_train_length (all_sentences : List α)
    (train_idxs : List Nat) (hnd : train_idxs.Nodup)
    (hsub : ∀ i ∈ train_idxs, i < all_sentences.length) :
    (create_train_val_splits all_sentences train_idxs).1.length =
      train_idxs.length := by
  unfold create_train_val_splits
  rw [List.length_map,
    ← filter_range_contains_length all_sentences.length train_idxs hnd hsub]
  have h := List.filter_map (p := fun i : Nat => train_idxs.contains i)
    Prod.fst all_sentences.enum
  rw [List.enum_map_fst] at h
  rw [h, List.length_map]
  exact congrArg List.length (List.filter_congr (fun x _ => rfl))

theorem create_splits_val_length (all_sentences : List α)
    (train_idxs : List Nat) (hnd : train_idxs.Nodup)
    (hsub : ∀ i ∈ train_idxs, i < all_sentences.length) :
    (create_train_val_splits all_sentences train_idxs).2.length =
      all_sentences.length - train_idxs.length := by
  have hp := (create_splits_perm all_sentences train_idxs).length_eq
  rw [List.length_append] at hp
  have ht := create_splits_train_length all_sentences train_idxs hnd hsub
  omega

theorem create_splits_mem (all_sentences : List α) (train_idxs : List Nat)
    (i : Nat) (h : i < all_sentences.length) :
    (i ∈ train_idxs →
      all_sentences[i] ∈ (create_train_val_splits all_sentences train_idxs).1) ∧
    (i ∉ train_idxs →
      all_sentences[i] ∈ (create_train_val_splits all_sentences train_idxs).2) := by
  have hi' : i < all_sentences.enum.length := by
    rw [List.enum_length]
    exact h
  have hmem : (i, all_sentences[i]) ∈ all_sentences.enum := by
    have hg := List.getElem_mem hi'
    rwa [List.getElem_enum] at hg
  unfold create_train_val_splits
  constructor
  · intro hin
    have hf : (i, all_sentences[i]) ∈
        all_sentences.enum.filter (fun p => train_idxs.contains p.1) :=
      List.mem_filter.mpr ⟨hmem, List.elem_eq_true_of_mem hin⟩
    exact List.mem_map_of_mem Prod.snd hf
  · intro hni
    have hc : train_idxs.contains i = false :=
      Bool.eq_false_iff.mpr (fun hcc => hni (contains_iff_mem_nat.mp hcc))
    have hf : (i, all_sentences[i]) ∈
        all_sentences.enum.filter (fun p => !train_idxs.contains p.1) :=
      List.mem_filter.mpr ⟨hmem, by rw [hc]; rfl⟩
    exact List.mem_map_of_mem Prod.snd hf

/-- Claim C3: with the indices drawn by `np.random.choice` made explicit
(`train_idxs`: duplicate-free, in range, of size
`int(0.7 * n + 0.5)` = `train_split_size n` — exactly what
`np.random.choice(range(n), size=..., replace=False)` produces),
`create_train_val_splits` partitions the input: train and validation
together are a permutation of the input, each is an order-preserving
sublist of the input, the sentence at a drawn index lands in the train
list and at any other index in the validation list, and the train list
has exactly `train_split_size n` sentences. -/
theorem c3_train_val_split (α : Type) (all_sentences : List α)
    (train_idxs : List Nat) (hnd : train_idxs.Nodup)
    (hsub : ∀ i ∈ train_idxs, i < all_sentences.length)
    (hsize : train_idxs.length = train_split_size all_sentences.length) :
    ((create_train_val_splits all_sentences train_idxs).1 ++
      (create_train_val_splits all_sentences train_idxs).2).Perm all_sentences ∧
    (create_train_val_splits all_sentences train_idxs).1.Sublist all_sentences ∧
    (create_train_val_splits all_sentences train_idxs).2.Sublist all_sentences ∧
    (create_train_val_splits all_sentences train_idxs).1.length =
      train_split_size all_sentences.length ∧
    (create_train_val_splits all_sentences train_idxs).2.length =
      all_sentences.length - train_split_size all_sentences.length ∧
    ∀ i (h : i < all_sentences.length),
      (i ∈ train_idxs →
        all_sentences[i] ∈ (create_train_val_splits all_sentences train_idxs).1) ∧
      (i ∉ train_idxs →
        all_sentences[i] ∈ (create_train_val_splits all_sentences train_idxs).2) := by
  refine ⟨create_splits_perm all_sentences train_idxs, ?_, ?_, ?_, ?_, ?_⟩
  · unfold create_train_val_splits
    have hs := (List.filter_sublist
      (p := fun p => train_idxs.contains p.1) all_sentences.enum).map Prod.snd
    rwa [List.enum_map_snd] at hs
  · unfold create_train_val_splits
    have hs := (List.filter_sublist
      (p := fun p => !train_idxs.contains p.1) all_sentences.enum).map Prod.snd
    rwa [List.enum_map_snd] at hs
  · rw [create_splits_train_length all_sentences train_idxs hnd hsub, hsize]
  · rw [create_splits_val_length all_sentences train_idxs hnd hsub, hsize]
  · exact create_splits_mem all_sentences train_idxs

/-- Witness for claim C3: three sentences, drawn index set `{2, 0}` (size
`train_split_size 3 = int(3 * 0.7 + 0.5) = 2`); the train list is
`[10, 30]` and the validation list `[20]`. -/
theorem c3_train_val_split_witness :
    ([2, 0] : List Nat).Nodup ∧
    (∀ i ∈ ([2, 0] : List Nat), i < ([10, 20, 30] : List Nat).length) ∧
    ([2, 0] : List Nat).length = train_split_size ([10, 20, 30] : List Nat).length ∧
    (((create_train_val_splits ([10, 20, 30] : List Nat) [2, 0]).1 ++
        (create_train_val_splits ([10, 20, 30] : List Nat) [2, 0]).2).Perm
          [10, 20, 30] ∧
      (create_train_val_splits ([10, 20, 30] : List Nat) [2, 0]).1.Sublist
        [10, 20, 30] ∧
      (create_train_val_splits ([10, 20, 30] : List Nat) [2, 0]).2.Sublist
        [10, 20, 30] ∧
      (create_train_val_splits ([10, 20, 30] : List Nat) [2, 0]).1.length =
        train_split_size ([10, 20, 30] : List Nat).length ∧
      (create_train_val_splits ([10, 20, 30] : List Nat) [2, 0]).2.length =
        ([10, 20, 30] : List Nat).length -
          train_split_size ([10, 20, 30] : List Nat).length ∧
      ∀ i (h : i < ([10, 20, 30] : List Nat).length),
        (i ∈ ([2, 0] : List Nat) →
          ([10, 20, 30] : List Nat)[i] ∈
            (create_train_val_splits ([10, 20, 30] : List Nat) [2, 0]).1) ∧
        (i ∉ ([2, 0] : List Nat) →
          ([10, 20, 30] : List Nat)[i] ∈
            (create_train_val_splits ([10, 20, 30] : List Nat) [2, 0]).2)) :=
  ⟨by decide, by decide, by decide,
    c3_train_val_split Nat [10, 20, 30] [2, 0] (by decide) (by decide) (by decide)⟩

/-! ## Claim C10 -/

/-- Counting the multiples of `v` below `N`: there are `⌈N / v⌉` of them,
written `(N + v - 1) / v`. -/
theorem count_multiples (N v : Nat) (hv : 1 ≤ v) :
    ((List.range N).filter (fun e => e % v == 0)).length = (N + v - 1) / v := by
  induction N with
  | zero =>
    have h0 : (0 + v - 1) / v = 0 := Nat.div_eq_of_lt (by omega)
    simpa using h0.symm
  | succ N ih =>
    rw [List.range_succ, List.filter_append, List.length_append, ih]
    by_cases h : N % v = 0
    · have hfil : List.filter (fun e => e % v == 0) [N] = [N] := by
        simp [h]
      rw [hfil]
      obtain ⟨q, rfl⟩ := Nat.dvd_of_mod_eq_zero h
      have e1 : v * q + v - 1 = v * q + (v - 1) := by omega
      have e2 : v * q + 1 + v - 1 = v * q + v := by omega
      rw [e1, e2, Nat.mul_add_div (by omega), Nat.mul_add_div (by omega),
        Nat.div_eq_of_lt (by omega : v - 1 < v), Nat.div_self (by omega : 0 < v)]
      simp
    · have hfil : List.filter (fun e => e % v == 0) [N] = [] := by
        simp [h]
      rw [hfil, List.length_nil]
      have hq := Nat.div_add_mod N v
      have hrv : N % v < v := Nat.mod_lt _ (by omega)
      have e1 : N + v - 1 = v * (N / v) + (N % v + v - 1) := by omega
      have e2 : N + 1 + v - 1 = v * (N / v) + (v + N % v) := by omega
      have e3 : N % v + v - 1 = v * 1 + (N % v - 1) := by omega
      have e4 : v + N % v = v * 1 + N % v := by omega
      rw [e1, e2, e3, e4, Nat.mul_add_div (by omega), Nat.mul_add_div (by omega),
        Nat.mul_add_div (by omega), Nat.mul_add_div (by omega),
        Nat.div_eq_of_lt (by omega : N % v - 1 < v),
        Nat.div_eq_of_lt hrv]

/-- Claim C10: for `num_epochs ≥ 1` and `val_every ≥ 1`, the number of
validation measurements the training loop of `main` collects equals the
number of x-axis points `output_result_figure` builds for a validation
graph, and both equal `⌈num_epochs / val_every⌉`. -/
theorem c10_val_points (num_epochs val_every : Nat)
    (h1 : 1 ≤ num_epochs) (h2 : 1 ≤ val_every) :
    (main_val_epochs num_epochs val_every).length =
      (output_result_figure_x_axis num_epochs val_every true).length ∧
    (main_val_epochs num_epochs val_every).length =
      (num_epochs + val_every - 1) / val_every := by
  have hc := count_multiples num_epochs val_every h2
  have hx : (output_result_figure_x_axis num_epochs val_every true).length =
      (num_epochs + val_every - 1) / val_every := by
    rw [output_result_figure_x_axis, if_pos rfl, pyRangeStep, List.length_range']
    exact congrArg (fun t => t / val_every)
      (by omega : num_epochs + 1 - 1 + val_every - 1 = num_epochs + val_every - 1)
  constructor
  · rw [main_val_epochs, hc, hx]
  · rw [main_val_epochs, hc]

/-- Witness for claim C10 at `num_epochs = 30`, `val_every = 5` (the
script defaults): six validation measurements, six x-axis points. -/
theorem c10_val_points_witness :
    1 ≤ 30 ∧ 1 ≤ 5 ∧
    ((main_val_epochs 30 5).length =
        (output_result_figure_x_axis 30 5 true).length ∧
     (main_val_epochs 30 5).length = (30 + 5 - 1) / 5) :=
  ⟨by decide, by decide, c10_val_points 30 5 (by decide) (by decide)⟩

end HW2
